import Mathlib

/-!
# nodeloggify: the buffered `Logger` of `src/index.js`

A shallow embedding of the `Logger` class: the queue of flattened log
entries, the drain step `moveQueue`, the timer callback installed by
`setupInterval`, the three producers `log`, `warn`, `error`, and the
`beforeExit` handler registered by the constructor.

JavaScript strings are modelled as lists of characters.  The regular
expression of `moveQueue` only mentions characters of the basic plane, so a
scan over characters agrees with the scan over UTF-16 code units.
-/

namespace Nodeloggify

/-- A JavaScript string. -/
abbrev Str := List Char

/-- The escape character `\x1b`. -/
def ESC : Char := Char.ofNat 27

/-! ## `CONSOLE_FORMATTERS` (the entries the logger uses) -/

/-- `CONSOLE_FORMATTERS.RESET`, `"\x1b[0m"`. -/
def RESET : Str := [ESC, '[', '0', 'm']

/-- `CONSOLE_FORMATTERS.BLUE`, `"\x1b[34m"`. -/
def BLUE : Str := [ESC, '[', '3', '4', 'm']

/-- `CONSOLE_FORMATTERS.GREEN`, `"\x1b[32m"`. -/
def GREEN : Str := [ESC, '[', '3', '2', 'm']

/-! ## The replacement `.replace(/\x1b\[\d+m/g, "")` -/

/-- The class `\d` of a regular expression without the `u` flag: `0` to `9`. -/
def isDigit (c : Char) : Bool := decide ('0' ≤ c) && decide (c ≤ '9')

/-- After at least one digit has been read: the rest of `\d+m`.  Returns the
number of characters consumed, the closing `m` included. -/
def matchDigits : Str → Option Nat
  | [] => none
  | c :: cs =>
    if c = 'm' then some 1
    else if isDigit c then (matchDigits cs).map (· + 1)
    else none

/-- Matches `\[\d+m` at the head of the text that follows an escape
character.  Returns the number of characters of the match. -/
def matchLen : Str → Option Nat
  | '[' :: d :: cs => if isDigit d then (matchDigits cs).map (· + 2) else none
  | _ => none

/-- The left-to-right scan of the global replacement.  The first argument
counts the characters of the current match that are still to be dropped. -/
def stripGo : Nat → Str → Str
  | _, [] => []
  | k + 1, _ :: cs => stripGo k cs
  | 0, c :: cs =>
    if c = ESC then
      match matchLen cs with
      | some k => stripGo k cs
      | none => c :: stripGo 0 cs
    else c :: stripGo 0 cs

/-- The text with every match of `/\x1b\[\d+m/g` replaced by the empty
string. -/
def stripAnsi (s : Str) : Str := stripGo 0 s

/-- The text contains an ANSI escape sequence: the escape character, `[`, one
or more decimal digits, `m`. -/
def HasEscape (s : Str) : Prop :=
  ∃ pre ds post, ds ≠ [] ∧ (∀ d ∈ ds, isDigit d = true) ∧
    s = pre ++ ESC :: '[' :: (ds ++ 'm' :: post)

/-- Every escape character of the text begins an escape sequence. -/
def escapesComplete : Str → Bool
  | [] => true
  | c :: cs => (c != ESC || (matchLen cs).isSome) && escapesComplete cs

/-! ## Values -/

/-- The JavaScript values a payload is built from.  `num n` is a number whose
value is the integer `n` (an integer in the safe range, where the decimal
numeral is the text of the number); `obj` lists the own enumerable properties
of a plain object in enumeration order. -/
inductive JSValue where
  | undefined
  | null
  | bool (b : Bool)
  | num (n : Int)
  | str (s : Str)
  | arr (xs : List JSValue)
  | obj (fs : List (Str × JSValue))

/-- The test `typeof v === "object"`. -/
def typeofIsObject : JSValue → Bool
  | .null => true
  | .arr _ => true
  | .obj _ => true
  | _ => false

/-- The decimal numeral of a natural number. -/
def natToString (n : Nat) : Str := Nat.toDigits 10 n

/-- The text of an integer-valued number. -/
def numberToString (n : Int) : Str :=
  if n < 0 then '-' :: natToString n.natAbs else natToString n.natAbs

/-- The escape `\uXXXX` of a code unit below `0x20`, in lowercase
hexadecimal. -/
def unicodeEscape (c : Char) : Str :=
  ['\\', 'u', '0', '0', Nat.digitChar (c.toNat / 16 % 16), Nat.digitChar (c.toNat % 16)]

/-- One character of `QuoteJSONString`. -/
def quoteChar (c : Char) : Str :=
  if c = Char.ofNat 8 then ['\\', 'b']
  else if c = Char.ofNat 9 then ['\\', 't']
  else if c = Char.ofNat 10 then ['\\', 'n']
  else if c = Char.ofNat 12 then ['\\', 'f']
  else if c = Char.ofNat 13 then ['\\', 'r']
  else if c = '"' then ['\\', '"']
  else if c = '\\' then ['\\', '\\']
  else if c.toNat < 32 then unicodeEscape c
  else [c]

/-- The abstract operation `QuoteJSONString`. -/
def quoteJSONString (s : Str) : Str := '"' :: (s.flatMap quoteChar ++ ['"'])

mutual
/-- The abstract operation `SerializeJSONProperty` without replacer or
indentation: `none` stands for `undefined`. -/
def serializeJSONProperty : JSValue → Option Str
  | .undefined => none
  | .null => some "null".toList
  | .bool b => some (if b then "true".toList else "false".toList)
  | .num n => some (numberToString n)
  | .str s => some (quoteJSONString s)
  | .arr xs => some ('[' :: (List.intercalate [','] (serializeJSONArray xs) ++ [']']))
  | .obj fs => some ('{' :: (List.intercalate [','] (serializeJSONObject fs) ++ ['}']))
/-- The elements of `SerializeJSONArray`: an element without a serialization
is written `null`. -/
def serializeJSONArray : List JSValue → List Str
  | [] => []
  | v :: vs => (serializeJSONProperty v).getD "null".toList :: serializeJSONArray vs
/-- The members of `SerializeJSONObject`: a property without a serialization
is left out. -/
def serializeJSONObject : List (Str × JSValue) → List Str
  | [] => []
  | (k, v) :: fs =>
    match serializeJSONProperty v with
    | some t => (quoteJSONString k ++ ':' :: t) :: serializeJSONObject fs
    | none => serializeJSONObject fs
end

namespace JSON

/-- `JSON.stringify(v)`: a string, or `undefined` (here `none`). -/
def stringify (v : JSValue) : Option Str := serializeJSONProperty v

end JSON

mutual
/-- The abstract operation `ToString`, as applied by `+` with a string
operand. -/
def toStr : JSValue → Str
  | .undefined => "undefined".toList
  | .null => "null".toList
  | .bool b => if b then "true".toList else "false".toList
  | .num n => numberToString n
  | .str s => s
  | .arr xs => List.intercalate [','] (joinElements xs)
  | .obj _ => "[object Object]".toList
/-- The elements of `Array.prototype.join`: `undefined` and `null` give the
empty string. -/
def joinElements : List JSValue → List Str
  | [] => []
  | .undefined :: vs => [] :: joinElements vs
  | .null :: vs => [] :: joinElements vs
  | v :: vs => toStr v :: joinElements vs
end

/-! ## The logger -/

/-- The `config` argument of the constructor.  `beforeExit` records whether
`typeof config.beforeExit === "function"`. -/
structure Config where
  discordWebhook : Option Str := none
  delay : Option Int := none
  outputFile : Option Str := none
  beforeExit : Bool := false

/-- A recurring timer set with `setInterval`. -/
structure Timer where
  handle : Nat
  period : Int
deriving DecidableEq

/-- The fields of a `Logger` instance (`logs`, `lastActivity`, `queue`,
`delay`, `interval`, `stream`) together with the part of the environment the
instance acts on: the calls of `console.log` made so far, the chunks written
to `this.stream`, the live timers this instance has set, and the next timer
handle `setInterval` hands out.  `stream` holds the path the write stream was
opened on. -/
structure Logger where
  logs : List Str
  lastActivity : Int
  queue : List JSValue
  delay : Int
  interval : Option Nat
  stream : Option Str
  console : List (List JSValue)
  written : List Str
  timers : List Timer
  nextHandle : Nat

namespace Logger

/-- The state part of `new Logger(config)`, constructed when the clock reads
`now`. -/
def constructor (config : Config) (now : Int) : Logger :=
  { logs := []
    lastActivity := now
    queue := []
    delay := config.delay.getD 0
    interval := none
    stream := config.outputFile
    console := []
    written := []
    timers := []
    nextHandle := 0 }

/-- The call `clearInterval(h)`: the timer with that handle is no longer live;
`clearInterval(undefined)` does nothing. -/
def clearInterval (h : Option Nat) (s : Logger) : Logger :=
  match h with
  | none => s
  | some h => { s with timers := s.timers.filter (fun t => t.handle ≠ h) }

/-- The method `setupInterval`: `this.interval = setInterval(..., this.delay)`. -/
def setupInterval (s : Logger) : Logger :=
  { s with
    interval := some s.nextHandle
    timers := s.timers ++ [⟨s.nextHandle, s.delay⟩]
    nextHandle := s.nextHandle + 1 }

/-- The payload as it enters the plain-text line:
`typeof message === "object" ? JSON.stringify(message) : message`, converted
to a string by the concatenation. -/
def renderPayload (message : JSValue) : Str :=
  if typeofIsObject message then
    match JSON.stringify message with
    | some t => t
    | none => toStr .undefined
  else toStr message

/-- The constant `log` of `moveQueue`: the three slots joined by spaces, the
escape sequences replaced, a newline appended. -/
def plainLine (timestamp type message : JSValue) : Str :=
  stripAnsi (toStr timestamp ++ ' ' :: (toStr type ++ ' ' :: renderPayload message)) ++ ['\n']

/-- The method `moveQueue`, run when the clock reads `now`.
`this.queue.splice(0, 3)` removes up to three slots from the front; a missing
slot destructures to `undefined`. -/
def moveQueue (now : Int) (s : Logger) : Logger :=
  let timestamp := s.queue.getD 0 .undefined
  let type := s.queue.getD 1 .undefined
  let message := s.queue.getD 2 .undefined
  let log := plainLine timestamp type message
  { s with
    queue := s.queue.drop 3
    console := s.console ++ [[timestamp, type, message]]
    written := if s.stream.isSome then s.written ++ [log] else s.written
    logs := s.logs ++ [log]
    lastActivity := now }

/-- The callback of `setupInterval`, one timer tick.  The clock reads `now` at
the idle test and `now2` when `moveQueue` stores it. -/
def tick (now now2 : Int) (s : Logger) : Logger :=
  let s1 :=
    if now - s.lastActivity ≥ 500 then
      { clearInterval s.interval s with interval := none }
    else s
  if s1.queue.length ≠ 0 then moveQueue now2 s1 else s1

/-- The method `log`; `time` is what `new Date().toLocaleTimeString()`
returns at the call. -/
def log (time : Str) (message : JSValue) (s : Logger) : Logger :=
  let timestamp := BLUE ++ '[' :: (time ++ [']'])
  let type := "<LOG>".toList ++ RESET
  let s1 := { s with queue := s.queue ++ [.str timestamp, .str type, message] }
  if s1.interval = none then setupInterval s1 else s1

/-- The method `error`. -/
def error (time : Str) (message : JSValue) (s : Logger) : Logger :=
  let timestamp := BLUE ++ '[' :: (time ++ [']'])
  let type := "<ERROR>".toList ++ RESET
  let s1 := { s with queue := s.queue ++ [.str timestamp, .str type, message] }
  if s1.interval = none then setupInterval s1 else s1

/-- The method `warn`. -/
def warn (time : Str) (message : JSValue) (s : Logger) : Logger :=
  let timestamp := BLUE ++ '[' :: (time ++ [']'])
  let type := "<WARN>".toList ++ RESET
  let s1 := { s with queue := s.queue ++ [.str timestamp, .str type, message] }
  if s1.interval = none then setupInterval s1 else s1

end Logger

/-! ## Calls and runs -/

/-- Which of the three producers is called. -/
inductive Severity where
  | log
  | warn
  | error
deriving DecidableEq

/-- The text of the severity tag. -/
def Severity.tag : Severity → Str
  | .log => "<LOG>".toList
  | .warn => "<WARN>".toList
  | .error => "<ERROR>".toList

/-- One call of `log`, `warn` or `error`: the method, the locale time string
of the moment of the call, and the message. -/
structure Call where
  severity : Severity
  time : Str
  message : JSValue

/-- The timestamp label a call stores. -/
def Call.timestamp (c : Call) : JSValue := .str (BLUE ++ '[' :: (c.time ++ [']']))

/-- The severity label a call stores. -/
def Call.label (c : Call) : JSValue := .str (c.severity.tag ++ RESET)

/-- The three queue slots of a call. -/
def Call.slots (c : Call) : List JSValue := [c.timestamp, c.label, c.message]

/-- The plain-text rendering of the entry of a call. -/
def Call.line (c : Call) : Str := Logger.plainLine c.timestamp c.label c.message

/-- Performs a call on the logger. -/
def Logger.call (s : Logger) (c : Call) : Logger :=
  match c.severity with
  | .log => s.log c.time c.message
  | .warn => s.warn c.time c.message
  | .error => s.error c.time c.message

/-- Runs `moveQueue` once for each clock reading of the list. -/
def Logger.drain (s : Logger) (clock : List Int) : Logger :=
  clock.foldl (fun s now => s.moveQueue now) s

/-- One event in the life of a logger: a call of `log`, `warn` or `error`, or
a tick of a live timer. -/
inductive Step : Logger → Logger → Prop where
  | call (s : Logger) (c : Call) : Step s (s.call c)
  | tick (s : Logger) (now now2 : Int) (live : s.timers ≠ []) : Step s (s.tick now now2)

/-- The states a freshly constructed logger reaches by calls and ticks. -/
inductive Reachable : Logger → Prop where
  | init (config : Config) (now : Int) : Reachable (Logger.constructor config now)
  | step {s t : Logger} (hs : Reachable s) (h : Step s t) : Reachable t

/-! ## The `beforeExit` handler -/

/-- One part of the multipart form. -/
structure FormPart where
  name : Str
  value : Str
  filename : Option Str
deriving DecidableEq

/-- What the handler does that is visible outside: a call of `fetch` with
method `POST`, or a call of `config.beforeExit`. -/
inductive ExitEvent where
  | post (url : Str) (body : List FormPart)
  | beforeExit (reason : Int)
deriving DecidableEq

/-- The call `readFileSync(path)` on a file system `files`: it throws (`none`)
when the path is `undefined` or names no file. -/
def readFileSync (files : Str → Option Str) (path : Option Str) : Option Str :=
  match path with
  | none => none
  | some p => files p

/-- The handler the constructor registers with `process.once("beforeExit", ...)`,
run with exit reason `reason`.  `files` is the file system at that moment and
`fetchResolves` tells whether the promise of `fetch` is fulfilled.  The result
lists the events in order; the handler stops at a throwing `readFileSync` and
at a rejected `fetch`. -/
def beforeExitHandler (config : Config) (files : Str → Option Str) (fetchResolves : Bool)
    (reason : Int) : List ExitEvent :=
  let callback := if config.beforeExit then [ExitEvent.beforeExit reason] else []
  match config.discordWebhook with
  | none => callback
  | some url =>
    if url = [] then callback
    else
      match readFileSync files config.outputFile with
      | none => []
      | some contents =>
        let form : List FormPart :=
          [ ⟨"file".toList, contents, config.outputFile⟩,
            ⟨"payload_json".toList,
              (JSON.stringify (.obj [("content".toList,
                .str ("Process exiting with reason: ".toList ++ numberToString reason))])).getD [],
              none⟩ ]
        if fetchResolves then ExitEvent.post url form :: callback
        else [ExitEvent.post url form]

/-! ## Statements about single operations -/

/-- What a producer called with time `time` and message `message` does to the
state `s`, giving `t`: three slots appended to the queue (the blue timestamp
label, the severity tag followed by the reset code, the message itself),
everything drained or written so far untouched, and a timer handle present
afterwards, a new timer being set exactly when there was no handle. -/
def AppendsEntry (tag time : Str) (message : JSValue) (s t : Logger) : Prop :=
  t.queue = s.queue ++ [.str (BLUE ++ '[' :: (time ++ [']'])), .str (tag ++ RESET), message] ∧
  t.logs = s.logs ∧ t.lastActivity = s.lastActivity ∧
  t.console = s.console ∧ t.written = s.written ∧
  t.interval ≠ none ∧
  (s.interval = none →
    t.interval = some s.nextHandle ∧ t.timers = s.timers ++ [⟨s.nextHandle, s.delay⟩]) ∧
  (s.interval ≠ none → t.interval = s.interval ∧ t.timers = s.timers)

/-- The live timers are exactly the one `this.interval` refers to, if any. -/
def TimerInvariant (s : Logger) : Prop :=
  s.timers.map Timer.handle = s.interval.toList

/-- The queue is the concatenation of the slots of whole entries. -/
def QueueInvariant (s : Logger) : Prop :=
  ∃ calls : List Call, s.queue = calls.flatMap Call.slots

/-! ## Sample runs -/

/-- A locale time string, as `toLocaleTimeString()` returns it in the `en-US`
locale. -/
def sampleTime : Str := "9:05:03 AM".toList

/-- A logger constructed at time `0` on which `log("hello")` was called. -/
def helloRun : Logger :=
  (Logger.constructor {} 0).log sampleTime (.str "hello".toList)

/-- A logger constructed at time `0` that stays unused for 600 ms, then takes
`log("a")` and `log("b")`, and whose timer ticks once. -/
def strandedRun : Logger :=
  (((Logger.constructor {} 0).log sampleTime (.str ['a'])).log sampleTime (.str ['b'])).tick
    600 600

/-- The configuration `{outputFile: "test.log"}`. -/
def fileConfig : Config := { outputFile := some "test.log".toList }

/-- The payload `{a: 1}`. -/
def objectPayload : JSValue := .obj [("a".toList, .num 1)]

/-- A logger with an output file on which `log({a: 1})` was called. -/
def objectRun : Logger :=
  (Logger.constructor fileConfig 0).log sampleTime objectPayload

/-- Three calls of mixed severity. -/
def sampleCalls : List Call :=
  [⟨.warn, sampleTime, .str ['w']⟩, ⟨.log, sampleTime, .num 7⟩, ⟨.error, sampleTime, .str ['e']⟩]

/-- A payload in which removing the inner escape sequence joins the outer
characters into a new one: `ESC [ ESC [ 0 m 0 m`. -/
def nestedPayload : Str := [ESC, '[', ESC, '[', '0', 'm', '0', 'm']

/-- A logger with an output file on which `log` was called with the nested
payload. -/
def nestedRun : Logger :=
  (Logger.constructor fileConfig 0).log sampleTime (.str nestedPayload)

/-- The configuration `{discordWebhook: "http://example/hook", outputFile:
"test.log"}` with an exit callback. -/
def hookConfig : Config :=
  { discordWebhook := some "http://example/hook".toList
    outputFile := some "test.log".toList
    beforeExit := true }

/-- A file system holding `test.log` with one line. -/
def sampleFiles (path : Str) : Option Str :=
  if path = "test.log".toList then some "[9:05:03 AM] <LOG> hello\n".toList else none

/-- The `payload_json` text for exit reason `reason`:
`{"content":"Process exiting with reason: <reason>"}`. -/
def exitPayload (reason : Int) : Str :=
  "\x7b\"content\":\"Process exiting with reason: ".toList ++ numberToString reason ++
    "\"\x7d".toList

/-- The pattern of the scenario of the specification,
`\[\d{1,2}:\d{2}:\d{2}.*\] <LOG> hello\n`, matched against a whole line: one
or two digits, two digits, two digits, separated by colons, any characters
other than a line break, then the severity tag and the payload. -/
def HelloLinePattern (line : Str) : Prop :=
  ∃ hh mm ss tail : Str,
    (hh.length = 1 ∨ hh.length = 2) ∧ mm.length = 2 ∧ ss.length = 2 ∧
    (∀ d ∈ hh ++ mm ++ ss, isDigit d = true) ∧ '\n' ∉ tail ∧
    line = '[' :: (hh ++ ':' :: (mm ++ ':' :: (ss ++ tail))) ++ "] <LOG> hello\n".toList

/-! ## Properties of the replacement -/

theorem matchDigits_le (cs : Str) (k : Nat) (h : matchDigits cs = some k) : k ≤ cs.length := by
  induction cs generalizing k with
  | nil => simp [matchDigits] at h
  | cons c cs ih =>
    rw [matchDigits] at h
    split_ifs at h with h1 h2
    · simp at h; subst h; simp
    · cases hm : matchDigits cs with
      | none => simp [hm] at h
      | some j =>
        simp [hm] at h
        have := ih j hm
        subst h
        simp; omega

theorem matchLen_le (cs : Str) (k : Nat) (h : matchLen cs = some k) : k ≤ cs.length := by
  unfold matchLen at h
  split at h
  · rename_i d cs
    split_ifs at h
    cases hm : matchDigits cs with
    | none => simp [hm] at h
    | some j =>
      simp [hm] at h
      have := matchDigits_le cs j hm
      subst h
      simp; omega
  · simp at h

theorem matchDigits_append_space (a b : Str) :
    matchDigits (a ++ ' ' :: b) = matchDigits a := by
  induction a with
  | nil => simp [matchDigits, isDigit]
  | cons c cs ih => simp [matchDigits, ih]

theorem matchLen_append_space (a b : Str) : matchLen (a ++ ' ' :: b) = matchLen a := by
  match a with
  | [] => simp [matchLen]
  | [c] =>
    simp only [List.singleton_append, matchLen]
    split
    · rename_i h; simp at h; obtain ⟨_, h2, _⟩ := h; subst h2; simp [isDigit]
    · rfl
  | c :: d :: cs =>
    simp only [List.cons_append, matchLen]
    split <;> rename_i h
    · simp at h
      obtain ⟨h1, h2, h3⟩ := h
      subst h1 h2 h3
      simp [matchLen, matchDigits_append_space]
    · split <;> rename_i h2
      · exfalso
        simp at h2
        obtain ⟨h1, h3, h4⟩ := h2
        exact h _ _ (by rw [h1, h3, h4]) 
      · rfl

theorem stripGo_append_space (a b : Str) (k : Nat) (hk : k ≤ a.length) :
    stripGo k (a ++ ' ' :: b) = stripGo k a ++ ' ' :: stripGo 0 b := by
  induction a generalizing k with
  | nil =>
    have : k = 0 := by simpa using hk
    subst this
    simp [stripGo, ESC]
  | cons c cs ih =>
    cases k with
    | succ k =>
      simp only [List.cons_append, stripGo]
      exact ih k (by simpa using hk)
    | zero =>
      simp only [List.cons_append, stripGo, List.append_eq]
      rw [matchLen_append_space]
      split_ifs with hc
      · cases hm : matchLen cs with
        | none => simp [ih 0 (Nat.zero_le _)]
        | some j => simp [ih j (matchLen_le cs j hm)]
      · simp [ih 0 (Nat.zero_le _)]

theorem stripAnsi_append_space (a b : Str) :
    stripAnsi (a ++ ' ' :: b) = stripAnsi a ++ ' ' :: stripAnsi b :=
  stripGo_append_space a b 0 (Nat.zero_le _)

theorem stripAnsi_of_not_mem (s : Str) (h : ESC ∉ s) : stripAnsi s = s := by
  unfold stripAnsi
  induction s with
  | nil => simp [stripGo]
  | cons c cs ih =>
    simp only [List.mem_cons, not_or] at h
    have hc : c ≠ ESC := fun e => h.1 e.symm
    simp [stripGo, hc, ih h.2]

theorem not_mem_stripGo (s : Str) (k : Nat) (h : escapesComplete s = true) :
    ESC ∉ stripGo k s := by
  induction s generalizing k with
  | nil => simp [stripGo]
  | cons c cs ih =>
    simp only [escapesComplete, Bool.and_eq_true, Bool.or_eq_true] at h
    cases k with
    | succ k => simpa [stripGo] using ih k h.2
    | zero =>
      simp only [stripGo]
      split_ifs with hc
      · cases hm : matchLen cs with
        | none => subst hc; simp [hm] at h
        | some j => simpa using ih j h.2
      · simp only [List.mem_cons, not_or]
        exact ⟨fun e => hc e.symm, ih 0 h.2⟩

theorem not_mem_stripAnsi (s : Str) (h : escapesComplete s = true) : ESC ∉ stripAnsi s :=
  not_mem_stripGo s 0 h

theorem not_hasEscape_of_not_mem (s : Str) (h : ESC ∉ s) : ¬ HasEscape s := by
  rintro ⟨pre, ds, post, -, -, rfl⟩
  exact h (by simp)

theorem stripAnsi_BLUE (r : Str) : stripAnsi (BLUE ++ r) = stripAnsi r := rfl

theorem stripAnsi_tag_RESET (sev : Severity) : stripAnsi (sev.tag ++ RESET) = sev.tag := by
  cases sev <;> decide

/-- The plain-text line is the three slots, each with its escape sequences
replaced, joined by spaces and closed by a newline. -/
theorem plainLine_eq (timestamp type message : JSValue) :
    Logger.plainLine timestamp type message =
      stripAnsi (toStr timestamp) ++ ' ' ::
        (stripAnsi (toStr type) ++ ' ' :: stripAnsi (Logger.renderPayload message)) ++ ['\n'] := by
  simp [Logger.plainLine, stripAnsi_append_space]

/-! ## The serialization never writes an escape character -/

theorem digitChar_ne_ESC_of_lt : ∀ n < 16, Nat.digitChar n ≠ ESC := by
  decide

theorem digitChar_ne_ESC (n b : Nat) (hb : 0 < b) (h : b ≤ 16) : Nat.digitChar (n % b) ≠ ESC :=
  digitChar_ne_ESC_of_lt _ (lt_of_lt_of_le (Nat.mod_lt _ hb) h)

theorem not_mem_toDigitsCore (fuel n : Nat) (ds : List Char) (h : ESC ∉ ds) :
    ESC ∉ Nat.toDigitsCore 10 fuel n ds := by
  induction fuel generalizing n ds with
  | zero => simpa [Nat.toDigitsCore] using h
  | succ fuel ih =>
    have hd : ESC ∉ Nat.digitChar (n % 10) :: ds := by
      simp only [List.mem_cons, not_or]
      exact ⟨fun e => digitChar_ne_ESC n 10 (by decide) (by decide) e.symm, h⟩
    simp only [Nat.toDigitsCore]
    split_ifs
    · exact hd
    · exact ih _ _ hd

theorem not_mem_numberToString (n : Int) : ESC ∉ numberToString n := by
  have h : ESC ∉ natToString n.natAbs := not_mem_toDigitsCore _ _ _ (by simp)
  unfold numberToString
  split_ifs
  · simp only [List.mem_cons, not_or]
    exact ⟨by decide, h⟩
  · exact h

theorem not_mem_quoteChar (c : Char) : ESC ∉ quoteChar c := by
  unfold quoteChar
  split_ifs with h1 h2 h3 h4 h5 h6 h7 h8
  any_goals decide
  · simp only [unicodeEscape, List.mem_cons, List.mem_singleton, not_or, List.not_mem_nil,
      not_false_eq_true, and_true]
    exact ⟨by decide, by decide, by decide, by decide,
      fun e => digitChar_ne_ESC _ 16 (by decide) (by decide) e.symm,
      fun e => digitChar_ne_ESC _ 16 (by decide) (by decide) e.symm⟩
  · simp only [List.mem_singleton]
    intro e
    subst e
    exact h8 (by decide)

theorem not_mem_quoteJSONString (s : Str) : ESC ∉ quoteJSONString s := by
  unfold quoteJSONString
  simp only [List.mem_cons, List.mem_append, List.mem_flatMap, List.mem_singleton, not_or,
    not_exists, not_and]
  exact ⟨by decide, fun c _ => not_mem_quoteChar c, by decide, by simp⟩

theorem not_mem_intercalate (c : Char) (sep : Str) (ls : List Str) (hs : c ∉ sep)
    (h : ∀ l ∈ ls, c ∉ l) : c ∉ List.intercalate sep ls := by
  induction ls with
  | nil => simp [List.intercalate]
  | cons x xs ih =>
    cases xs with
    | nil => simpa [List.intercalate, List.intersperse] using h x (by simp)
    | cons y ys =>
      have ih2 := ih (fun l hl => h l (List.mem_cons_of_mem _ hl))
      have hx := h x (by simp)
      simp only [List.intercalate, List.intersperse, List.flatten, List.mem_append, not_or] at ih2 ⊢
      exact ⟨hx, hs, ih2⟩

mutual
theorem not_mem_serializeJSONProperty :
    ∀ (v : JSValue) (t : Str), serializeJSONProperty v = some t → ESC ∉ t
  | .undefined, t, h => by simp [serializeJSONProperty] at h
  | .null, t, h => by
    simp only [serializeJSONProperty, Option.some.injEq] at h
    subst h; decide
  | .bool b, t, h => by
    simp only [serializeJSONProperty, Option.some.injEq] at h
    subst h; cases b <;> decide
  | .num n, t, h => by
    simp only [serializeJSONProperty, Option.some.injEq] at h
    subst h; exact not_mem_numberToString n
  | .str s, t, h => by
    simp only [serializeJSONProperty, Option.some.injEq] at h
    subst h; exact not_mem_quoteJSONString s
  | .arr xs, t, h => by
    simp only [serializeJSONProperty, Option.some.injEq] at h
    subst h
    simp only [List.mem_cons, List.mem_append, List.mem_singleton, not_or, List.not_mem_nil,
      or_false]
    exact ⟨by decide,
      not_mem_intercalate _ _ _ (by decide) (not_mem_serializeJSONArray xs), by decide⟩
  | .obj fs, t, h => by
    simp only [serializeJSONProperty, Option.some.injEq] at h
    subst h
    simp only [List.mem_cons, List.mem_append, List.mem_singleton, not_or, List.not_mem_nil,
      or_false]
    exact ⟨by decide,
      not_mem_intercalate _ _ _ (by decide) (not_mem_serializeJSONObject fs), by decide⟩
theorem not_mem_serializeJSONArray :
    ∀ (xs : List JSValue), ∀ l ∈ serializeJSONArray xs, ESC ∉ l
  | [], l, h => by simp [serializeJSONArray] at h
  | v :: vs, l, h => by
    simp only [serializeJSONArray, List.mem_cons] at h
    rcases h with h | h
    · subst h
      cases hv : serializeJSONProperty v with
      | none => simp only [Option.getD_none]; decide
      | some t => simpa using not_mem_serializeJSONProperty v t hv
    · exact not_mem_serializeJSONArray vs l h
theorem not_mem_serializeJSONObject :
    ∀ (fs : List (Str × JSValue)), ∀ l ∈ serializeJSONObject fs, ESC ∉ l
  | [], l, h => by simp [serializeJSONObject] at h
  | (k, v) :: fs, l, h => by
    simp only [serializeJSONObject] at h
    cases hv : serializeJSONProperty v with
    | none =>
      rw [hv] at h
      exact not_mem_serializeJSONObject fs l h
    | some t =>
      rw [hv] at h
      simp only [List.mem_cons] at h
      rcases h with h | h
      · subst h
        simp only [List.mem_append, List.mem_cons, not_or]
        exact ⟨not_mem_quoteJSONString k, by decide, not_mem_serializeJSONProperty v t hv⟩
      · exact not_mem_serializeJSONObject fs l h
end

/-- The text `JSON.stringify` returns holds no escape character: control
characters are written as `\uXXXX`. -/
theorem not_mem_stringify (v : JSValue) (t : Str) (h : JSON.stringify v = some t) : ESC ∉ t :=
  not_mem_serializeJSONProperty v t h

/-- A value with `typeof v === "object"` always has a serialization. -/
theorem stringify_isSome_of_object (v : JSValue) (h : typeofIsObject v = true) :
    ∃ t, JSON.stringify v = some t := by
  cases v <;> simp [typeofIsObject, JSON.stringify, serializeJSONProperty] at h ⊢

/-! ## The producers -/

theorem call_eq (s : Logger) (c : Call) :
    s.call c =
      if s.interval = none then
        Logger.setupInterval { s with queue := s.queue ++ c.slots }
      else { s with queue := s.queue ++ c.slots } := by
  cases c with
  | mk sev time message => cases sev <;> rfl

theorem call_queue (s : Logger) (c : Call) : (s.call c).queue = s.queue ++ c.slots := by
  rw [call_eq]; split_ifs <;> rfl

theorem call_logs (s : Logger) (c : Call) : (s.call c).logs = s.logs := by
  rw [call_eq]; split_ifs <;> rfl

theorem call_written (s : Logger) (c : Call) : (s.call c).written = s.written := by
  rw [call_eq]; split_ifs <;> rfl

theorem call_console (s : Logger) (c : Call) : (s.call c).console = s.console := by
  rw [call_eq]; split_ifs <;> rfl

theorem call_stream (s : Logger) (c : Call) : (s.call c).stream = s.stream := by
  rw [call_eq]; split_ifs <;> rfl

theorem call_appendsEntry (s : Logger) (c : Call) :
    AppendsEntry c.severity.tag c.time c.message s (s.call c) := by
  rw [call_eq]
  unfold AppendsEntry
  by_cases h : s.interval = none
  · simp [h, Logger.setupInterval, Call.slots, Call.timestamp, Call.label]
  · simp [h, Call.slots, Call.timestamp, Call.label]

/-- C4: each of `log`, `warn` and `error` appends exactly the three slots of
one entry (blue timestamp label built from the locale time, the tag `<LOG>`,
`<WARN>` or `<ERROR>` with the reset code, the message unchanged) to the end of
the queue, leaves the queue slots already there, `logs`, `lastActivity` and
the sinks unchanged, and leaves a timer handle set: a new timer is started
when the handle was `undefined`, and handle and timers are kept otherwise. -/
theorem C4_producers_append_one_entry (s : Logger) (time : Str) (message : JSValue) :
    AppendsEntry "<LOG>".toList time message s (s.log time message) ∧
    AppendsEntry "<WARN>".toList time message s (s.warn time message) ∧
    AppendsEntry "<ERROR>".toList time message s (s.error time message) :=
  ⟨call_appendsEntry s ⟨.log, time, message⟩,
   call_appendsEntry s ⟨.warn, time, message⟩,
   call_appendsEntry s ⟨.error, time, message⟩⟩

/-! ## Draining -/

theorem moveQueue_slots (s : Logger) (now : Int) (c : Call) (rest : List JSValue)
    (h : s.queue = c.slots ++ rest) :
    (s.moveQueue now).queue = rest ∧
    (s.moveQueue now).logs = s.logs ++ [c.line] ∧
    (s.moveQueue now).console = s.console ++ [c.slots] ∧
    (s.moveQueue now).written = (if s.stream.isSome then s.written ++ [c.line] else s.written) ∧
    (s.moveQueue now).stream = s.stream ∧
    (s.moveQueue now).lastActivity = now := by
  simp [Logger.moveQueue, h, Call.slots, Call.line]

theorem calls_foldl (calls : List Call) (s : Logger) :
    (calls.foldl Logger.call s).queue = s.queue ++ calls.flatMap Call.slots ∧
    (calls.foldl Logger.call s).logs = s.logs ∧
    (calls.foldl Logger.call s).written = s.written ∧
    (calls.foldl Logger.call s).console = s.console ∧
    (calls.foldl Logger.call s).stream = s.stream := by
  induction calls generalizing s with
  | nil => simp
  | cons c cs ih =>
    simp only [List.foldl_cons, List.flatMap_cons]
    obtain ⟨h1, h2, h3, h4, h5⟩ := ih (s.call c)
    rw [h1, h2, h3, h4, h5, call_queue, call_logs, call_written, call_console, call_stream]
    simp

theorem drain_calls (calls : List Call) (clock : List Int) (s : Logger)
    (hq : s.queue = calls.flatMap Call.slots) (hn : clock.length = calls.length) :
    (s.drain clock).queue = [] ∧
    (s.drain clock).logs = s.logs ++ calls.map Call.line ∧
    (s.drain clock).console = s.console ++ calls.map Call.slots ∧
    (s.drain clock).written =
      (if s.stream.isSome then s.written ++ calls.map Call.line else s.written) := by
  induction calls generalizing clock s with
  | nil =>
    have : clock = [] := by simpa using hn
    subst this
    simpa [Logger.drain] using hq
  | cons c cs ih =>
    cases clock with
    | nil => simp at hn
    | cons now clock =>
      obtain ⟨h1, h2, h3, h4, h5, -⟩ :=
        moveQueue_slots s now c (cs.flatMap Call.slots) (by simpa using hq)
      obtain ⟨k1, k2, k3, k4⟩ := ih clock (s.moveQueue now) h1 (by simpa using hn)
      simp only [Logger.drain, List.foldl_cons] at k1 k2 k3 k4 ⊢
      refine ⟨k1, ?_, ?_, ?_⟩
      · rw [k2, h2]; simp
      · rw [k3, h3]; simp
      · rw [k4, h5, h4]
        split_ifs <;> simp

/-- C1: after any `n` calls of `log`/`warn`/`error` on a freshly constructed
logger, `n` runs of `moveQueue` leave the queue empty and `logs` holding
exactly `n` lines, the `i`-th being the plain-text line of the `i`-th call:
every entry is drained once and the lines are in call order.  The console
sink received the entries in the same order. -/
theorem C1_drain_is_fifo (config : Config) (start : Int) (calls : List Call)
    (clock : List Int) (hn : clock.length = calls.length) :
    ((calls.foldl Logger.call (Logger.constructor config start)).drain clock).queue = [] ∧
    ((calls.foldl Logger.call (Logger.constructor config start)).drain clock).logs
      = calls.map Call.line ∧
    ((calls.foldl Logger.call (Logger.constructor config start)).drain clock).logs.length
      = calls.length ∧
    ((calls.foldl Logger.call (Logger.constructor config start)).drain clock).console
      = calls.map Call.slots := by
  obtain ⟨h1, h2, h3, h4, h5⟩ := calls_foldl calls (Logger.constructor config start)
  obtain ⟨k1, k2, k3, -⟩ :=
    drain_calls calls clock (calls.foldl Logger.call (Logger.constructor config start))
      (by rw [h1]; simp [Logger.constructor]) hn
  refine ⟨k1, ?_, ?_, ?_⟩
  · rw [k2, h2]; simp [Logger.constructor]
  · rw [k2, h2]; simp [Logger.constructor]
  · rw [k3, h4]; simp [Logger.constructor]

/-! ## Ticks -/

theorem clearInterval_queue (h : Option Nat) (s : Logger) :
    (Logger.clearInterval h s).queue = s.queue := by
  cases h <;> rfl

theorem tick_idle (s : Logger) (now now2 : Int) (h : now - s.lastActivity ≥ 500) :
    s.tick now now2 =
      if s.queue.length ≠ 0 then
        Logger.moveQueue now2 { Logger.clearInterval s.interval s with interval := none }
      else { Logger.clearInterval s.interval s with interval := none } := by
  unfold Logger.tick
  dsimp only
  rw [if_pos h]
  dsimp only
  rw [clearInterval_queue]

theorem tick_busy (s : Logger) (now now2 : Int) (h : ¬ now - s.lastActivity ≥ 500) :
    s.tick now now2 = if s.queue.length ≠ 0 then Logger.moveQueue now2 s else s := by
  unfold Logger.tick
  dsimp only
  rw [if_neg h]

theorem tick_interval (s : Logger) (now now2 : Int) :
    (s.tick now now2).interval = (if now - s.lastActivity ≥ 500 then none else s.interval) ∧
    (s.tick now now2).timers =
      (if now - s.lastActivity ≥ 500 then (Logger.clearInterval s.interval s).timers
        else s.timers) := by
  by_cases h : now - s.lastActivity ≥ 500
  · rw [tick_idle s now now2 h, if_pos h, if_pos h]
    split_ifs <;> exact ⟨rfl, rfl⟩
  · rw [tick_busy s now now2 h, if_neg h, if_neg h]
    split_ifs <;> exact ⟨rfl, rfl⟩

theorem tick_moveQueue (s : Logger) (now now2 : Int) :
    (s.tick now now2).queue = (if s.queue.length ≠ 0 then s.queue.drop 3 else s.queue) ∧
    (s.tick now now2).logs = (if s.queue.length ≠ 0 then (s.moveQueue now2).logs else s.logs) ∧
    (s.tick now now2).lastActivity =
      (if s.queue.length ≠ 0 then now2 else s.lastActivity) ∧
    (s.tick now now2).console =
      (if s.queue.length ≠ 0 then (s.moveQueue now2).console else s.console) ∧
    (s.tick now now2).written =
      (if s.queue.length ≠ 0 then (s.moveQueue now2).written else s.written) := by
  by_cases h : now - s.lastActivity ≥ 500
  · rw [tick_idle s now now2 h]
    cases hi : s.interval <;> refine ⟨?_, ?_, ?_, ?_, ?_⟩ <;> split_ifs <;> rfl
  · rw [tick_busy s now now2 h]
    refine ⟨?_, ?_, ?_, ?_, ?_⟩ <;> split_ifs <;> rfl

theorem clearInterval_timers_subset (s : Logger) (h : Option Nat) :
    ∀ x ∈ (Logger.clearInterval h s).timers, x ∈ s.timers := by
  intro x hx
  cases h with
  | none => exact hx
  | some h => exact (List.mem_filter.mp hx).1

theorem queueInvariant_of_reachable (s : Logger) (h : Reachable s) : QueueInvariant s := by
  induction h with
  | init config now => exact ⟨[], rfl⟩
  | @step s t hs h ih =>
    obtain ⟨calls, hc⟩ := ih
    cases h with
    | call c => exact ⟨calls ++ [c], by rw [call_queue, hc]; simp⟩
    | tick now now2 live =>
      cases calls with
      | nil =>
        refine ⟨[], ?_⟩
        rw [(tick_moveQueue s now now2).1, hc]; simp
      | cons c cs =>
        refine ⟨cs, ?_⟩
        rw [(tick_moveQueue s now now2).1, hc]; simp [Call.slots]

theorem timerInvariant_of_reachable (s : Logger) (h : Reachable s) : TimerInvariant s := by
  induction h with
  | init config now => rfl
  | @step s t hs h ih =>
    unfold TimerInvariant at ih ⊢
    cases h with
    | call c =>
      rw [call_eq]
      by_cases hi : s.interval = none
      · rw [hi] at ih
        have ht : s.timers = [] := by simpa using ih
        simp [hi, Logger.setupInterval, ht]
      · simpa [hi] using ih
    | tick now now2 live =>
      obtain ⟨h1, h2⟩ := tick_interval s now now2
      rw [h1, h2]
      by_cases hi : now - s.lastActivity ≥ 500
      · simp only [hi, if_true, Option.toList]
        cases hs : s.interval with
        | none => rw [hs] at ih; simpa [Logger.clearInterval] using ih
        | some x =>
          rw [hs] at ih
          simp only [Logger.clearInterval, List.map_eq_nil_iff, List.filter_eq_nil_iff]
          intro t ht
          have : t.handle ∈ s.timers.map Timer.handle := List.mem_map_of_mem _ ht
          rw [ih] at this
          simpa using this
      · simpa [hi] using ih

theorem flatMap_slots_length (calls : List Call) :
    (calls.flatMap Call.slots).length = 3 * calls.length := by
  induction calls with
  | nil => rfl
  | cons c cs ih => simp [List.flatMap_cons, Call.slots, ih]; omega

theorem reachable_helloRun : Reachable helloRun :=
  Reachable.step (Reachable.init {} 0) (Step.call _ ⟨.log, sampleTime, .str "hello".toList⟩)

/-- C9: in every reachable state the queue length is a multiple of three; a
tick on a non-empty queue removes exactly the three front slots, which are the
slots of one call, leaves the slots behind them as they were, appends exactly
one line (the plain-text line of that call) to `logs` and stores the clock in
`lastActivity`; a tick on the empty queue changes neither queue, `logs` nor
`lastActivity`. -/
theorem C9_tick_drains_one_entry (s : Logger) (h : Reachable s) (now now2 : Int) :
    3 ∣ s.queue.length ∧
    (s.queue ≠ [] → ∃ (c : Call) (rest : List JSValue),
      s.queue = c.slots ++ rest ∧
      (s.tick now now2).queue = rest ∧
      (s.tick now now2).logs = s.logs ++ [c.line] ∧
      (s.tick now now2).lastActivity = now2) ∧
    (s.queue = [] →
      (s.tick now now2).queue = [] ∧
      (s.tick now now2).logs = s.logs ∧
      (s.tick now now2).lastActivity = s.lastActivity) := by
  obtain ⟨calls, hc⟩ := queueInvariant_of_reachable s h
  obtain ⟨t1, t2, t3, -, -⟩ := tick_moveQueue s now now2
  refine ⟨?_, ?_, ?_⟩
  · rw [hc, flatMap_slots_length]; exact Dvd.intro _ rfl
  · intro hne
    cases calls with
    | nil => exact absurd (by simpa using hc) hne
    | cons c cs =>
      have hq : s.queue = c.slots ++ cs.flatMap Call.slots := by simpa using hc
      have hlen : s.queue.length ≠ 0 := by simpa using hne
      obtain ⟨m1, m2, -⟩ := moveQueue_slots s now2 c _ hq
      refine ⟨c, cs.flatMap Call.slots, hq, ?_, ?_, ?_⟩
      · rw [t1, if_pos hlen, hq]; simp [Call.slots]
      · rw [t2, if_pos hlen, m2]
      · rw [t3, if_pos hlen]
  · intro he
    have hlen : ¬ s.queue.length ≠ 0 := by simp [he]
    rw [t1, t2, t3, if_neg hlen, if_neg hlen, if_neg hlen]
    exact ⟨he, rfl, rfl⟩

/-- C9, at the reachable state after one call of `log("hello")`. -/
theorem C9_tick_drains_one_entry_witness :
    Reachable helloRun ∧
    3 ∣ helloRun.queue.length ∧
    (helloRun.queue ≠ [] → ∃ (c : Call) (rest : List JSValue),
      helloRun.queue = c.slots ++ rest ∧
      (helloRun.tick 5 6).queue = rest ∧
      (helloRun.tick 5 6).logs = helloRun.logs ++ [c.line] ∧
      (helloRun.tick 5 6).lastActivity = 6) ∧
    (helloRun.queue = [] →
      (helloRun.tick 5 6).queue = [] ∧
      (helloRun.tick 5 6).logs = helloRun.logs ∧
      (helloRun.tick 5 6).lastActivity = helloRun.lastActivity) :=
  ⟨reachable_helloRun, C9_tick_drains_one_entry helloRun reachable_helloRun 5 6⟩

/-- C10: in every reachable state at most one timer set by the instance is
live, and it is the one `this.interval` holds; a step starts a new timer only
when the handle was `undefined`, and a step that sets the handle to `undefined`
leaves no live timer with the handle it held. -/
theorem C10_at_most_one_live_timer (s : Logger) (h : Reachable s) :
    s.timers.length ≤ 1 ∧
    s.timers.map Timer.handle = s.interval.toList ∧
    ∀ t, Step s t →
      ((∃ x ∈ t.timers, x ∉ s.timers) → s.interval = none) ∧
      (∀ k, s.interval = some k → t.interval = none → ∀ x ∈ t.timers, x.handle ≠ k) := by
  have hinv : s.timers.map Timer.handle = s.interval.toList := timerInvariant_of_reachable s h
  refine ⟨?_, hinv, ?_⟩
  · have : (s.timers.map Timer.handle).length ≤ 1 := by
      rw [hinv]; cases s.interval <;> simp
    simpa using this
  · intro t ht
    cases ht with
    | call c =>
      obtain ⟨-, -, -, -, -, a1, -, a3⟩ := call_appendsEntry s c
      refine ⟨?_, ?_⟩
      · rintro ⟨x, hx, hxs⟩
        by_contra hne
        rw [(a3 hne).2] at hx
        exact hxs hx
      · intro k _ hnone
        exact absurd hnone a1
    | tick now now2 live =>
      obtain ⟨h1, h2⟩ := tick_interval s now now2
      refine ⟨?_, ?_⟩
      · rintro ⟨x, hx, hxs⟩
        rw [h2] at hx
        split_ifs at hx
        · exact absurd (clearInterval_timers_subset s _ x hx) hxs
        · exact absurd hx hxs
      · intro k hk hnone x hx
        rw [h1] at hnone
        rw [h2] at hx
        split_ifs at hnone hx with hidle
        · rw [hk] at hx
          simpa [Logger.clearInterval] using (List.mem_filter.mp hx).2
        · rw [hk] at hnone; simp at hnone

/-- C10, at the reachable state after one call of `log("hello")`. -/
theorem C10_at_most_one_live_timer_witness :
    Reachable helloRun ∧
    helloRun.timers.length ≤ 1 ∧
    helloRun.timers.map Timer.handle = helloRun.interval.toList ∧
    ∀ t, Step helloRun t →
      ((∃ x ∈ t.timers, x ∉ helloRun.timers) → helloRun.interval = none) ∧
      (∀ k, helloRun.interval = some k → t.interval = none → ∀ x ∈ t.timers, x.handle ≠ k) :=
  ⟨reachable_helloRun, C10_at_most_one_live_timer helloRun reachable_helloRun⟩

/-- C5: on a logger whose handle is set, a tick that finds
`now - lastActivity >= 500` leaves the handle `undefined` and no live timer
with the handle it held, whether or not the queue is empty; the next call of
`log` sets a new timer and stores its handle. -/
theorem C5_idle_tick_stops_timer (s : Logger) (k : Nat) (now now2 : Int)
    (hk : s.interval = some k) (hidle : now - s.lastActivity ≥ 500) :
    (s.tick now now2).interval = none ∧
    (∀ x ∈ (s.tick now now2).timers, x.handle ≠ k) ∧
    ∀ (time : Str) (message : JSValue),
      ((s.tick now now2).log time message).interval = some (s.tick now now2).nextHandle ∧
      ((s.tick now now2).log time message).timers =
        (s.tick now now2).timers ++
          [⟨(s.tick now now2).nextHandle, (s.tick now now2).delay⟩] := by
  obtain ⟨h1, h2⟩ := tick_interval s now now2
  rw [if_pos hidle] at h1 h2
  refine ⟨h1, ?_, ?_⟩
  · intro x hx
    rw [h2, hk] at hx
    simpa [Logger.clearInterval] using (List.mem_filter.mp hx).2
  · intro time message
    obtain ⟨-, -, -, -, -, -, a2, -⟩ :=
      call_appendsEntry (s.tick now now2) ⟨.log, time, message⟩
    exact a2 h1

/-- C5, at the state after one call of `log("hello")` on a logger constructed at
time `0`, with a tick at time `500`. -/
theorem C5_idle_tick_stops_timer_witness :
    helloRun.interval = some 0 ∧ (500 : Int) - helloRun.lastActivity ≥ 500 ∧
    (helloRun.tick 500 501).interval = none ∧
    (∀ x ∈ (helloRun.tick 500 501).timers, x.handle ≠ 0) ∧
    ∀ (time : Str) (message : JSValue),
      ((helloRun.tick 500 501).log time message).interval
        = some (helloRun.tick 500 501).nextHandle ∧
      ((helloRun.tick 500 501).log time message).timers =
        (helloRun.tick 500 501).timers ++
          [⟨(helloRun.tick 500 501).nextHandle, (helloRun.tick 500 501).delay⟩] :=
  ⟨rfl, by decide, C5_idle_tick_stops_timer helloRun 0 500 501 rfl (by decide)⟩

theorem reachable_strandedRun : Reachable strandedRun :=
  Reachable.step
    (Reachable.step
      (Reachable.step (Reachable.init {} 0) (Step.call _ ⟨.log, sampleTime, .str ['a']⟩))
      (Step.call _ ⟨.log, sampleTime, .str ['b']⟩))
    (Step.tick _ 600 600 (by decide))

/-- C3 fails on the code: a logger constructed at time `0` takes `log("a")` and
`log("b")` at time `600`; the first tick finds `600 - 0 >= 500`, clears the
timer and drains only the entry of `"a"`.  The state is reachable, its queue
still holds the three slots of `"b"`, the handle is `undefined` and no timer is
live, so no tick follows: only a further call can restart the draining. -/
theorem C3_idle_tick_strands_entry :
    Reachable strandedRun ∧
    strandedRun.queue = Call.slots ⟨.log, sampleTime, .str ['b']⟩ ∧
    strandedRun.logs = ["[9:05:03 AM] <LOG> a\n".toList] ∧
    strandedRun.interval = none ∧
    strandedRun.timers = [] ∧
    ∀ t, Step strandedRun t → ∃ c, t = strandedRun.call c := by
  refine ⟨reachable_strandedRun, rfl, by decide, rfl, rfl, ?_⟩
  intro t ht
  cases ht with
  | call c => exact ⟨c, rfl⟩
  | tick now now2 live => exact absurd rfl live

/-! ## One call, one tick -/

theorem fresh_call_tick (config : Config) (start now now2 : Int) (c : Call) :
    (((Logger.constructor config start).call c).tick now now2).queue = [] ∧
    (((Logger.constructor config start).call c).tick now now2).logs = [c.line] ∧
    (((Logger.constructor config start).call c).tick now now2).console = [c.slots] ∧
    (((Logger.constructor config start).call c).tick now now2).written =
      (if config.outputFile.isSome then [c.line] else []) := by
  have hq : ((Logger.constructor config start).call c).queue = c.slots ++ [] := by
    rw [call_queue]; simp [Logger.constructor]
  have hlen : ((Logger.constructor config start).call c).queue.length ≠ 0 := by
    rw [hq]; simp [Call.slots]
  obtain ⟨t1, t2, -, t4, t5⟩ := tick_moveQueue ((Logger.constructor config start).call c) now now2
  obtain ⟨m1, m2, m3, m4, -, -⟩ := moveQueue_slots _ now2 c [] hq
  rw [if_pos hlen] at t1 t2 t4 t5
  refine ⟨?_, ?_, ?_, ?_⟩
  · rw [t1, hq]; simp [Call.slots]
  · rw [t2, m2, call_logs]; simp [Logger.constructor]
  · rw [t4, m3, call_console]; simp [Logger.constructor]
  · rw [t5, m4, call_written, call_stream]; simp [Logger.constructor]

theorem log_line_of_text (sev : Severity) (time m : Str) (ht : ESC ∉ time) (hm : ESC ∉ m) :
    Call.line ⟨sev, time, .str m⟩ =
      '[' :: (time ++ ']' :: ' ' :: (sev.tag ++ ' ' :: m)) ++ ['\n'] := by
  have h1 : stripAnsi ('[' :: (time ++ [']'])) = '[' :: (time ++ [']']) := by
    apply stripAnsi_of_not_mem
    simp only [List.mem_cons, List.mem_append, List.mem_singleton, not_or, List.not_mem_nil,
      or_false]
    exact ⟨by decide, ht, by decide⟩
  simp only [Call.line, plainLine_eq, Call.timestamp, Call.label, toStr, stripAnsi_BLUE,
    stripAnsi_tag_RESET, h1, Logger.renderPayload, typeofIsObject]
  simp [stripAnsi_of_not_mem m hm]

/-- C6: on a logger constructed with an output file, `log(m)` at locale time
`t` followed by one tick writes to the file sink exactly one chunk, the line
`"[" + t + "] <LOG> " + m + "\n"`, and appends that same line to `logs`, for
every text `m` and time string `t` free of the escape character. -/
theorem C6_log_then_drain_writes_line (config : Config) (path : Str)
    (hfile : config.outputFile = some path) (start now now2 : Int) (t m : Str)
    (ht : ESC ∉ t) (hm : ESC ∉ m) :
    (((Logger.constructor config start).log t (.str m)).tick now now2).written =
      ['[' :: (t ++ "] <LOG> ".toList ++ m) ++ ['\n']] ∧
    (((Logger.constructor config start).log t (.str m)).tick now now2).logs =
      ['[' :: (t ++ "] <LOG> ".toList ++ m) ++ ['\n']] := by
  obtain ⟨-, h2, -, h4⟩ := fresh_call_tick config start now now2 ⟨.log, t, .str m⟩
  have hl := log_line_of_text .log t m ht hm
  have hline : Call.line ⟨.log, t, .str m⟩ = '[' :: (t ++ "] <LOG> ".toList ++ m) ++ ['\n'] := by
    rw [hl]; simp [Severity.tag]
  rw [hline] at h2 h4
  refine ⟨?_, h2⟩
  rw [hfile] at h4
  exact h4

/-- C6, at `m = "hello"` and `t = "9:05:03 AM"`: the line written is
`[9:05:03 AM] <LOG> hello` with a newline, which matches the pattern of the
scenario. -/
theorem C6_log_then_drain_writes_line_witness :
    fileConfig.outputFile = some "test.log".toList ∧
    ESC ∉ sampleTime ∧ ESC ∉ "hello".toList ∧
    ((((Logger.constructor fileConfig 0).log sampleTime (.str "hello".toList)).tick 1 2).written =
      ["[9:05:03 AM] <LOG> hello\n".toList] ∧
    (((Logger.constructor fileConfig 0).log sampleTime (.str "hello".toList)).tick 1 2).logs =
      ["[9:05:03 AM] <LOG> hello\n".toList]) ∧
    HelloLinePattern "[9:05:03 AM] <LOG> hello\n".toList :=
  ⟨rfl, by decide, by decide,
    C6_log_then_drain_writes_line fileConfig "test.log".toList rfl 0 1 2 sampleTime
      "hello".toList (by decide) (by decide),
    ⟨['9'], ['0', '5'], ['0', '3'], [' ', 'A', 'M'], Or.inl rfl, rfl, rfl, by decide, by decide,
      rfl⟩⟩

/-- C1, at a `warn`, a `log` and an `error` call drained by three runs of
`moveQueue`: the lines come out in call order. -/
theorem C1_drain_is_fifo_witness :
    [1, 2, 3].length = sampleCalls.length ∧
    (((sampleCalls.foldl Logger.call (Logger.constructor {} 0)).drain [1, 2, 3]).queue = [] ∧
    ((sampleCalls.foldl Logger.call (Logger.constructor {} 0)).drain [1, 2, 3]).logs
      = sampleCalls.map Call.line ∧
    ((sampleCalls.foldl Logger.call (Logger.constructor {} 0)).drain [1, 2, 3]).logs.length
      = sampleCalls.length ∧
    ((sampleCalls.foldl Logger.call (Logger.constructor {} 0)).drain [1, 2, 3]).console
      = sampleCalls.map Call.slots) ∧
    sampleCalls.map Call.line =
      ["[9:05:03 AM] <WARN> w\n".toList, "[9:05:03 AM] <LOG> 7\n".toList,
        "[9:05:03 AM] <ERROR> e\n".toList] :=
  ⟨rfl, C1_drain_is_fifo {} 0 sampleCalls [1, 2, 3] rfl, by decide⟩

/-! ## Escape sequences in the plain-text line -/

/-- C2 fails as stated: the replacement is a single pass.  For the payload
`ESC [ ESC [ 0 m 0 m` the pass removes the inner sequence and the characters
around it form a new one, which the line appended to `logs` and written to the
file still holds. -/
theorem C2_nested_sequence_survives :
    (nestedRun.tick 1 2).logs = ["[9:05:03 AM] <LOG> ".toList ++ [ESC, '[', '0', 'm', '\n']] ∧
    (nestedRun.tick 1 2).written = ["[9:05:03 AM] <LOG> ".toList ++ [ESC, '[', '0', 'm', '\n']] ∧
    HasEscape ("[9:05:03 AM] <LOG> ".toList ++ [ESC, '[', '0', 'm', '\n']) := by
  refine ⟨by decide, by decide, ?_⟩
  exact ⟨"[9:05:03 AM] <LOG> ".toList, ['0'], ['\n'], by simp, by decide, rfl⟩

/-- C2, amended: whenever every escape character of the timestamp label, of
the severity label and of the payload string begins an escape sequence, the
line `moveQueue` appends to `logs` and writes to the file sink holds no escape
character, hence no escape sequence. -/
theorem C2_line_has_no_escape (s : Logger) (now : Int) (ts ty p : Str) (rest : List JSValue)
    (hq : s.queue = .str ts :: .str ty :: .str p :: rest)
    (h1 : escapesComplete ts = true) (h2 : escapesComplete ty = true)
    (h3 : escapesComplete p = true) :
    (s.moveQueue now).logs = s.logs ++ [Logger.plainLine (.str ts) (.str ty) (.str p)] ∧
    (s.moveQueue now).written =
      (if s.stream.isSome then s.written ++ [Logger.plainLine (.str ts) (.str ty) (.str p)]
        else s.written) ∧
    ESC ∉ Logger.plainLine (.str ts) (.str ty) (.str p) ∧
    ¬ HasEscape (Logger.plainLine (.str ts) (.str ty) (.str p)) := by
  have hmem : ESC ∉ Logger.plainLine (.str ts) (.str ty) (.str p) := by
    rw [plainLine_eq]
    simp only [toStr, Logger.renderPayload, typeofIsObject, List.mem_append, List.mem_cons,
      List.mem_singleton, not_or, List.not_mem_nil, or_false]
    exact ⟨⟨not_mem_stripAnsi ts h1, by decide, not_mem_stripAnsi ty h2, by decide,
      by simpa using not_mem_stripAnsi p h3⟩, by decide⟩
  refine ⟨?_, ?_, hmem, not_hasEscape_of_not_mem _ hmem⟩
  · simp [Logger.moveQueue, hq]
  · simp [Logger.moveQueue, hq]

/-- C2, amended, at the entry of `log("hello")`. -/
theorem C2_line_has_no_escape_witness :
    helloRun.queue =
      .str (BLUE ++ "[9:05:03 AM]".toList) :: .str ("<LOG>".toList ++ RESET) ::
        .str "hello".toList :: [] ∧
    escapesComplete (BLUE ++ "[9:05:03 AM]".toList) = true ∧
    escapesComplete ("<LOG>".toList ++ RESET) = true ∧
    escapesComplete "hello".toList = true ∧
    Logger.plainLine (.str (BLUE ++ "[9:05:03 AM]".toList)) (.str ("<LOG>".toList ++ RESET))
      (.str "hello".toList) = "[9:05:03 AM] <LOG> hello\n".toList ∧
    ¬ HasEscape (Logger.plainLine (.str (BLUE ++ "[9:05:03 AM]".toList))
      (.str ("<LOG>".toList ++ RESET)) (.str "hello".toList)) :=
  ⟨rfl, by decide, by decide, by decide, by decide,
    (C2_line_has_no_escape helloRun 1 (BLUE ++ "[9:05:03 AM]".toList) ("<LOG>".toList ++ RESET)
      "hello".toList [] rfl (by decide) (by decide) (by decide)).2.2.2⟩

/-! ## Structured payloads -/

/-- C7 fails as stated: `moveQueue` passes the payload itself to
`console.log`, not its serialization.  For the payload `{a: 1}` the console
sink receives the two labels and the object, and no argument is a string that
contains the text `{"a":1}`; only the file and `logs` receive that text. -/
theorem C7_console_receives_object :
    JSON.stringify objectPayload = some "\x7b\"a\":1\x7d".toList ∧
    (objectRun.tick 1 2).console =
      [[.str (BLUE ++ "[9:05:03 AM]".toList), .str ("<LOG>".toList ++ RESET), objectPayload]] ∧
    (∀ text : Str, objectPayload ≠ .str text) ∧
    ∀ arg ∈ [JSValue.str (BLUE ++ "[9:05:03 AM]".toList), .str ("<LOG>".toList ++ RESET),
        objectPayload],
      ∀ text pre post : Str, arg = .str text → text ≠ pre ++ "\x7b\"a\":1\x7d".toList ++ post := by
  refine ⟨by decide, rfl, fun text h => (by cases h), ?_⟩
  intro arg harg text pre post htext hcontains
  have hbrace : Char.ofNat 123 ∈ text := by
    rw [hcontains]; simp
  simp only [List.mem_cons, List.mem_singleton, List.not_mem_nil, or_false] at harg
  rcases harg with h | h | h
  · rw [h] at htext
    injection htext with ht
    rw [← ht] at hbrace
    revert hbrace
    decide
  · rw [h] at htext
    injection htext with ht
    rw [← ht] at hbrace
    revert hbrace
    decide
  · rw [h] at htext
    cases htext

/-- C7, amended: for every payload `v` with `typeof v === "object"`,
`moveQueue` passes `v` itself, after the two labels, to the console sink, and
the line it appends to `logs` and writes to the file sink is the two labels
with their escape sequences replaced, then `JSON.stringify(v)`, joined by
spaces and closed by a newline; the serialization holds no escape
character. -/
theorem C7_object_payload (s : Logger) (now : Int) (ts ty v : JSValue) (rest : List JSValue)
    (hv : typeofIsObject v = true) (hq : s.queue = ts :: ty :: v :: rest) :
    ∃ j : Str, JSON.stringify v = some j ∧ ESC ∉ j ∧
      (s.moveQueue now).console = s.console ++ [[ts, ty, v]] ∧
      (s.moveQueue now).logs =
        s.logs ++ [stripAnsi (toStr ts) ++ ' ' :: (stripAnsi (toStr ty) ++ ' ' :: j) ++ ['\n']] ∧
      (s.moveQueue now).written =
        (if s.stream.isSome then
          s.written ++ [stripAnsi (toStr ts) ++ ' ' :: (stripAnsi (toStr ty) ++ ' ' :: j) ++ ['\n']]
        else s.written) := by
  obtain ⟨j, hj⟩ := stringify_isSome_of_object v hv
  have hesc : ESC ∉ j := not_mem_stringify v j hj
  have hline : Logger.plainLine ts ty v =
      stripAnsi (toStr ts) ++ ' ' :: (stripAnsi (toStr ty) ++ ' ' :: j) ++ ['\n'] := by
    rw [plainLine_eq]
    simp [Logger.renderPayload, hv, hj, stripAnsi_of_not_mem j hesc]
  refine ⟨j, hj, hesc, ?_, ?_, ?_⟩
  · simp [Logger.moveQueue, hq]
  · rw [← hline]; simp [Logger.moveQueue, hq]
  · rw [← hline]; simp [Logger.moveQueue, hq]

/-- C7, amended, at the payload `{a: 1}`: the console sink receives the object
and the file line is `[9:05:03 AM] <LOG> {"a":1}` with a newline. -/
theorem C7_object_payload_witness :
    typeofIsObject objectPayload = true ∧
    (∃ j : Str, JSON.stringify objectPayload = some j ∧ ESC ∉ j ∧
      (objectRun.moveQueue 2).console = objectRun.console ++
        [[.str (BLUE ++ "[9:05:03 AM]".toList), .str ("<LOG>".toList ++ RESET), objectPayload]] ∧
      (objectRun.moveQueue 2).logs =
        objectRun.logs ++ [stripAnsi (toStr (.str (BLUE ++ "[9:05:03 AM]".toList))) ++ ' ' ::
          (stripAnsi (toStr (.str ("<LOG>".toList ++ RESET))) ++ ' ' :: j) ++ ['\n']] ∧
      (objectRun.moveQueue 2).written =
        (if objectRun.stream.isSome then
          objectRun.written ++ [stripAnsi (toStr (.str (BLUE ++ "[9:05:03 AM]".toList))) ++ ' ' ::
            (stripAnsi (toStr (.str ("<LOG>".toList ++ RESET))) ++ ' ' :: j) ++ ['\n']]
        else objectRun.written)) ∧
    (objectRun.moveQueue 2).written = ["[9:05:03 AM] <LOG> \x7b\"a\":1\x7d\n".toList] ∧
    (objectRun.moveQueue 2).logs = ["[9:05:03 AM] <LOG> \x7b\"a\":1\x7d\n".toList] :=
  ⟨rfl, C7_object_payload objectRun 2 (.str (BLUE ++ "[9:05:03 AM]".toList))
    (.str ("<LOG>".toList ++ RESET)) objectPayload [] rfl rfl, by decide, by decide⟩

/-! ## The exit handler -/

theorem quoteChar_digitChar : ∀ n < 10, quoteChar (Nat.digitChar n) = [Nat.digitChar n] := by
  decide

theorem quoteChar_of_mem_toDigitsCore (fuel n : Nat) (ds : List Char)
    (h : ∀ c ∈ ds, quoteChar c = [c]) :
    ∀ c ∈ Nat.toDigitsCore 10 fuel n ds, quoteChar c = [c] := by
  induction fuel generalizing n ds with
  | zero => simpa [Nat.toDigitsCore] using h
  | succ fuel ih =>
    have hd : ∀ c ∈ Nat.digitChar (n % 10) :: ds, quoteChar c = [c] := by
      intro c hc
      rcases List.mem_cons.mp hc with hc | hc
      · rw [hc]; exact quoteChar_digitChar _ (Nat.mod_lt _ (by decide))
      · exact h c hc
    simp only [Nat.toDigitsCore]
    split_ifs
    · exact hd
    · exact ih _ _ hd

theorem quoteChar_of_mem_numberToString (n : Int) :
    ∀ c ∈ numberToString n, quoteChar c = [c] := by
  have h : ∀ c ∈ natToString n.natAbs, quoteChar c = [c] :=
    quoteChar_of_mem_toDigitsCore _ _ _ (by simp)
  unfold numberToString
  split_ifs
  · intro c hc
    rcases List.mem_cons.mp hc with hc | hc
    · rw [hc]; decide
    · exact h c hc
  · exact h

theorem flatMap_quoteChar_eq (l : Str) (h : ∀ c ∈ l, quoteChar c = [c]) :
    l.flatMap quoteChar = l := by
  induction l with
  | nil => rfl
  | cons c cs ih =>
    rw [List.flatMap_cons, h c (by simp), ih (fun d hd => h d (List.mem_cons_of_mem _ hd))]
    rfl

theorem stringify_exit_payload (reason : Int) :
    JSON.stringify (.obj [("content".toList,
      .str ("Process exiting with reason: ".toList ++ numberToString reason))])
      = some (exitPayload reason) := by
  have hp : ∀ c ∈ "Process exiting with reason: ".toList, quoteChar c = [c] := by decide
  have hq : ("Process exiting with reason: ".toList ++ numberToString reason).flatMap quoteChar
      = "Process exiting with reason: ".toList ++ numberToString reason := by
    apply flatMap_quoteChar_eq
    intro c hc
    rcases List.mem_append.mp hc with hc | hc
    · exact hp c hc
    · exact quoteChar_of_mem_numberToString reason c hc
  have hk : quoteJSONString "content".toList = "\"content\"".toList := by decide
  have hv : quoteJSONString ("Process exiting with reason: ".toList ++ numberToString reason)
      = '"' :: ("Process exiting with reason: ".toList ++ numberToString reason ++ ['"']) := by
    simp only [quoteJSONString, hq]
  simp only [JSON.stringify, serializeJSONProperty, serializeJSONObject, hk, hv, exitPayload,
    List.intercalate, List.intersperse, List.flatten]
  simp

/-- C8 fails as stated: with a webhook but no output file configured,
`readFileSync` throws, so no POST is issued and the configured callback is not
invoked; and when the promise of `fetch` is rejected the POST has been issued
but the configured callback is not invoked. -/
theorem C8_no_upload_without_file :
    beforeExitHandler
      { discordWebhook := some "http://example/hook".toList, beforeExit := true }
      sampleFiles true 0 = [] ∧
    beforeExitHandler hookConfig sampleFiles false 0 =
      [.post "http://example/hook".toList
        [⟨"file".toList, "[9:05:03 AM] <LOG> hello\n".toList, some "test.log".toList⟩,
          ⟨"payload_json".toList,
            "\x7b\"content\":\"Process exiting with reason: 0\"\x7d".toList, none⟩]] := by
  decide

/-- C8, amended: for every exit reason `r`, (1) without a webhook URL (absent
or empty) the handler issues no POST and invokes the callback, when one is
configured, exactly once with `r`; (2) with a non-empty webhook URL and a
readable output file it issues exactly one POST to that URL, whose `file` part
is the contents read, named with the configured path, and whose `payload_json`
part is `{"content":"Process exiting with reason: <r>"}`, and then, when the
promise of `fetch` is fulfilled and a callback is configured, invokes the
callback exactly once with `r`; (3) with a non-empty webhook URL and a throwing
read it does nothing. -/
theorem C8_exit_handler (config : Config) (files : Str → Option Str) (fetchResolves : Bool)
    (reason : Int) :
    (config.discordWebhook = none ∨ config.discordWebhook = some [] →
      beforeExitHandler config files fetchResolves reason =
        (if config.beforeExit then [.beforeExit reason] else [])) ∧
    (∀ url path contents, config.discordWebhook = some url → url ≠ [] →
      config.outputFile = some path → files path = some contents →
      beforeExitHandler config files fetchResolves reason =
        .post url
          [⟨"file".toList, contents, some path⟩,
            ⟨"payload_json".toList, exitPayload reason, none⟩] ::
          (if fetchResolves && config.beforeExit then [.beforeExit reason] else [])) ∧
    (∀ url, config.discordWebhook = some url → url ≠ [] →
      readFileSync files config.outputFile = none →
      beforeExitHandler config files fetchResolves reason = []) := by
  refine ⟨?_, ?_, ?_⟩
  · rintro (h | h) <;> simp [beforeExitHandler, h]
  · intro url path contents hurl hne hpath hfile
    have hread : readFileSync files (some path) = some contents := hfile
    simp only [beforeExitHandler, hurl, hne, if_false, hpath, hread, stringify_exit_payload,
      Option.getD_some]
    cases fetchResolves <;> cases config.beforeExit <;> simp
  · intro url hurl hne hread
    simp [beforeExitHandler, hurl, hne, hread]

/-- C8, amended, at the scenario of the specification: webhook and output file
configured, exit reason `0`, the upload fulfilled. -/
theorem C8_exit_handler_witness :
    hookConfig.discordWebhook = some "http://example/hook".toList ∧
    hookConfig.outputFile = some "test.log".toList ∧
    sampleFiles "test.log".toList = some "[9:05:03 AM] <LOG> hello\n".toList ∧
    beforeExitHandler hookConfig sampleFiles true 0 =
      [.post "http://example/hook".toList
        [⟨"file".toList, "[9:05:03 AM] <LOG> hello\n".toList, some "test.log".toList⟩,
          ⟨"payload_json".toList,
            "\x7b\"content\":\"Process exiting with reason: 0\"\x7d".toList, none⟩],
       .beforeExit 0] :=
  ⟨rfl, rfl, rfl,
    (C8_exit_handler hookConfig sampleFiles true 0).2.1 "http://example/hook".toList
      "test.log".toList "[9:05:03 AM] <LOG> hello\n".toList rfl (by decide) rfl rfl⟩

end Nodeloggify
